import Mathlib

/-!
Verification of the Day 12 present-packing module
(`internal/days/day12/day12.py`).

Shapes are finite sets of `(row, col)` cells, embedded as
`Finset (ℤ × ℤ)`.  The Python dictionary of shapes is embedded as an
association list `List (Nat × Shape)`, and the mutable occupancy set of
the backtracking search becomes explicit state passing: each search
function returns the final occupancy set together with its boolean
result.  The wall-clock deadline parameter of the Python solver is not
modelled (real time is outside the embedding); with the default
`deadline = inf` the timeout branch never fires.
-/

namespace Day12

abbrev Cell : Type := ℤ × ℤ

abbrev Shape : Type := Finset Cell

/-- `normalize_shape`: shift a shape so its minimum row and minimum
column are 0.  The empty shape is returned unchanged (the Python code
returns `shape` when `not shape`). -/
def normalize_shape (shape : Shape) : Shape :=
  if h : shape.Nonempty then
    let min_row : ℤ := (shape.image Prod.fst).min' (h.image _)
    let min_col : ℤ := (shape.image Prod.snd).min' (h.image _)
    shape.image fun p => (p.1 - min_row, p.2 - min_col)
  else shape

/-- `rotate_90`: rotate a shape 90 degrees clockwise,
`(r, c) -> (c, -r)`, then normalize. -/
def rotate_90 (shape : Shape) : Shape :=
  normalize_shape (shape.image fun p => (p.2, -p.1))

/-- `flip_horizontal`: flip a shape horizontally, `(r, c) -> (r, -c)`,
then normalize. -/
def flip_horizontal (shape : Shape) : Shape :=
  normalize_shape (shape.image fun p => (p.1, -p.2))

/-- The inner rotation loop of `generate_transformations`: for
`rotation` in `range 4`, append `normalize_shape (rotate_90^[rotation]
working)` to the result list unless it is already present. -/
def rotation_pass (working : Shape) (result : List Shape) : List Shape :=
  (List.range 4).foldl
    (fun result rotation =>
      if normalize_shape (rotate_90^[rotation] working) ∈ result then result
      else result ++ [normalize_shape (rotate_90^[rotation] working)])
    result

/-- `generate_transformations`: all unique transformations (rotations
and flips) of a shape, in generation order.  The Python `seen` set
always holds exactly the members of `result`, so the membership test on
`seen` is embedded as a membership test on the result list. -/
def generate_transformations (shape : Shape) : List Shape :=
  let current := normalize_shape shape
  [false, true].foldl
    (fun result flip =>
      rotation_pass (if flip then flip_horizontal current else current) result)
    []

/-- Row-major comparison of cells, used to enumerate the elements of a
cell set in a fixed order (Python iterates its hash sets in an
arbitrary order; the embedding fixes row-major order). -/
def cell_le (a b : Cell) : Prop :=
  a.1 < b.1 ∨ (a.1 = b.1 ∧ a.2 ≤ b.2)

instance : DecidableRel cell_le := by
  unfold cell_le; infer_instance

instance : IsTrans Cell cell_le := by
  constructor; intro a b c hab hbc; unfold cell_le at *; omega

instance : IsAntisymm Cell cell_le := by
  constructor; intro a b hab hba
  unfold cell_le at *
  have h1 : a.1 = b.1 ∧ a.2 = b.2 := by omega
  exact Prod.ext h1.1 h1.2

instance : IsTotal Cell cell_le := by
  constructor; intro a b; unfold cell_le; omega

/-- The elements of a cell set, listed in row-major order.  Defined by
insertion sort on the underlying multiset (rather than
`Finset.sort`, whose merge sort is defined by well-founded recursion
and does not evaluate inside the kernel). -/
def cells_in_order (s : Finset Cell) : List Cell :=
  Quot.liftOn s.val (fun l => l.insertionSort cell_le) fun _ _ h =>
    List.eq_of_perm_of_sorted
      ((List.perm_insertionSort _ _).trans
        (h.trans (List.perm_insertionSort _ _).symm))
      (List.sorted_insertionSort _ _) (List.sorted_insertionSort _ _)

/-- `get_candidate_positions`: positions to try for the next piece.
The first piece is pinned to `(0, 0)` (symmetry breaking); later
pieces may go on any in-bounds free cell 4-adjacent to an occupied
cell.  Python builds a set and returns it as a list; the embedding
folds over the occupied cells and returns the candidate set as a
list in row-major order. -/
def get_candidate_positions (occupied : Finset Cell) (width height : ℤ)
    (first_piece : Bool) : List Cell :=
  if first_piece then [((0 : ℤ), (0 : ℤ))]
  else
    cells_in_order
      ((cells_in_order occupied).foldl
        (fun (candidates : Finset Cell) rc =>
          [((-1 : ℤ), (0 : ℤ)), (1, 0), (0, -1), (0, 1)].foldl
            (fun candidates d =>
              let n : Cell := (rc.1 + d.1, rc.2 + d.2)
              if 0 ≤ n.1 ∧ n.1 < height ∧ 0 ≤ n.2 ∧ n.2 < width ∧ n ∉ occupied then
                insert n candidates
              else candidates)
            candidates)
        ∅)

/-- `can_place_at`: the shape, translated to origin `(start_row,
start_col)`, stays in bounds and hits no occupied cell. -/
def can_place_at (occupied : Finset Cell) (shape : Shape)
    (start_row start_col width height : ℤ) : Prop :=
  ∀ d ∈ shape,
    0 ≤ start_row + d.1 ∧ start_row + d.1 < height ∧
    0 ≤ start_col + d.2 ∧ start_col + d.2 < width ∧
    (start_row + d.1, start_col + d.2) ∉ occupied

instance (occupied : Finset Cell) (shape : Shape) (start_row start_col width height : ℤ) :
    Decidable (can_place_at occupied shape start_row start_col width height) := by
  unfold can_place_at; infer_instance

/-- The cells covered by `shape` when its origin is at `(start_row, start_col)`. -/
def shape_cells_at (shape : Shape) (start_row start_col : ℤ) : Finset Cell :=
  shape.image fun d => (start_row + d.1, start_col + d.2)

/-- `place_shape_at`: add the shape's translated cells to the occupancy
set (Python mutates the set; the embedding returns the new set). -/
def place_shape_at (occupied : Finset Cell) (shape : Shape)
    (start_row start_col : ℤ) : Finset Cell :=
  occupied ∪ shape_cells_at shape start_row start_col

/-- `unplace_shape_at`: remove the shape's translated cells from the
occupancy set. -/
def unplace_shape_at (occupied : Finset Cell) (shape : Shape)
    (start_row start_col : ℤ) : Finset Cell :=
  occupied \ shape_cells_at shape start_row start_col

/-- The inner loop of `backtrack_optimized` over candidate positions
for a fixed transformation: place, recurse, and on failure unplace and
continue with the next candidate.  `rec` is the recursive call on the
remaining presents. -/
def tryPositions (width height : ℤ) (rec : Finset Cell → Bool × Finset Cell)
    (t : Shape) : List Cell → Finset Cell → Bool × Finset Cell
  | [], occ => (false, occ)
  | pos :: ps, occ =>
    if can_place_at occ t pos.1 pos.2 width height then
      match rec (place_shape_at occ t pos.1 pos.2) with
      | (true, occ2) => (true, occ2)
      | (false, occ2) => tryPositions width height rec t ps (unplace_shape_at occ2 t pos.1 pos.2)
    else tryPositions width height rec t ps occ

/-- The outer loop of `backtrack_optimized` over the transformations of
the current shape. -/
def tryTransformations (width height : ℤ) (rec : Finset Cell → Bool × Finset Cell)
    (cands : List Cell) : List Shape → Finset Cell → Bool × Finset Cell
  | [], occ => (false, occ)
  | t :: ts, occ =>
    match tryPositions width height rec t cands occ with
    | (true, occ2) => (true, occ2)
    | (false, occ2) => tryTransformations width height rec cands ts occ2

/-- Fuel-indexed form of the recursive search; the fuel is always the
length of the remaining tasks list, so the fuel-exhaustion branch is
unreachable.  Structural recursion on the fuel keeps the definition
kernel-reducible. -/
def backtrack_go (width height piece_size : ℤ)
    (transformations : Nat → List Shape) (total : Nat) :
    Nat → List Nat → Finset Cell → Bool × Finset Cell
  | _, [], occ => (true, occ)
  | 0, _ :: _, occ => (false, occ)
  | fuel + 1, shape_idx :: rest, occ =>
    if width * height - (occ.card : ℤ) < ((rest.length : ℤ) + 1) * piece_size then
      (false, occ)
    else
      tryTransformations width height
        (fun occ2 => backtrack_go width height piece_size transformations total fuel rest occ2)
        (get_candidate_positions occ width height (rest.length + 1 == total))
        (transformations shape_idx) occ

/-- `backtrack_optimized`: the recursive search.  The presents list
from position `index` onward becomes the explicit `tasks` list, so
`len(presents) - index = tasks.length` and `index == 0` becomes
`tasks.length == total`.  Returns the boolean result together with the
final occupancy set (Python mutates `occupied` in place). -/
def backtrack_optimized (width height piece_size : ℤ)
    (transformations : Nat → List Shape) (total : Nat)
    (tasks : List Nat) (occ : Finset Cell) : Bool × Finset Cell :=
  backtrack_go width height piece_size transformations total tasks.length tasks occ

/-- Unfolding equation for `backtrack_optimized` on a non-empty tasks
list: the size prune, then the loop over transformations and candidate
positions, recursing on the remaining tasks. -/
theorem backtrack_optimized_cons (width height piece_size : ℤ)
    (transformations : Nat → List Shape) (total : Nat)
    (shape_idx : Nat) (rest : List Nat) (occ : Finset Cell) :
    backtrack_optimized width height piece_size transformations total (shape_idx :: rest) occ =
      if width * height - (occ.card : ℤ) < ((rest.length : ℤ) + 1) * piece_size then
        (false, occ)
      else
        tryTransformations width height
          (fun occ2 => backtrack_optimized width height piece_size transformations total rest occ2)
          (get_candidate_positions occ width height (rest.length + 1 == total))
          (transformations shape_idx) occ := rfl

/-- Unfolding equation for `backtrack_optimized` on the empty tasks
list: all presents placed, report success. -/
theorem backtrack_optimized_nil (width height piece_size : ℤ)
    (transformations : Nat → List Shape) (total : Nat) (occ : Finset Cell) :
    backtrack_optimized width height piece_size transformations total [] occ = (true, occ) := rfl

/-- The `total_present_area` / `piece_size` accumulation of
`can_fit_presents_backtracking`: skips indices with zero count or
absent from the shapes map; `piece_size` ends as the size of the last
counted shape (the Python `if/elif` assigns the new size in every
qualifying iteration). -/
def area_and_piece_size (shapes : List (Nat × Shape)) (required : List Nat) : Nat × Nat :=
  required.enum.foldl
    (fun acc p =>
      if 0 < p.2 then
        match List.lookup p.1 shapes with
        | some s => (acc.1 + s.card * p.2, s.card)
        | none => acc
      else acc)
    (0, 0)

/-- The key comparison of the Python `presents.sort(key=sort_key)`:
lexicographic order on `(number of transformations, shape index)`. -/
def sort_key_le (transformations : Nat → List Shape) (a b : Nat) : Bool :=
  (transformations a).length < (transformations b).length ||
    ((transformations a).length == (transformations b).length && a ≤ b)

/-- Stable insertion used to embed the Python list sort.  Ties in the
full key imply equal elements here, so any correct sort by this key
produces the same list as Python's. -/
def insert_by_key (transformations : Nat → List Shape) (x : Nat) :
    List Nat → List Nat
  | [] => [x]
  | y :: ys =>
    if sort_key_le transformations y x then y :: insert_by_key transformations x ys
    else x :: y :: ys

/-- Sort the presents list ascending by `(number of transformations, index)`. -/
def sort_presents (transformations : Nat → List Shape) : List Nat → List Nat
  | [] => []
  | x :: xs => insert_by_key transformations x (sort_presents transformations xs)

/-- `can_fit_presents_backtracking`: area pre-check, transformation
cache, flattened and sorted presents list, then the backtracking
search started from an empty occupancy set.  Only the boolean result
is returned (the final occupancy set is discarded).  The Python dict
of cached transformations becomes an association list; both the sort
key (`all_transformations.get(idx, [])`) and the search lookup are
embedded as the same total lookup function defaulting to `[]` (the
Python search raises `KeyError` for an index absent from the shapes
map, a state no claim exercises). -/
def can_fit_presents_backtracking (width height : ℤ)
    (shapes : List (Nat × Shape)) (required : List Nat) : Bool :=
  let region_area := width * height
  let ap := area_and_piece_size shapes required
  if (ap.1 : ℤ) > region_area then false
  else
    let all_transformations := shapes.map fun p => (p.1, generate_transformations p.2)
    let transformations : Nat → List Shape := fun i =>
      (List.lookup i all_transformations).getD []
    let presents := required.enum.foldl
      (fun acc p => acc ++ List.replicate p.2 p.1) []
    let presents := sort_presents transformations presents
    if presents.isEmpty then true
    else
      (backtrack_optimized width height (ap.2 : ℤ) transformations
        presents.length presents ∅).1

/-- The `total_tile_area` accumulation of `can_fit_presents`: total
cell count over indices with positive count that are present in the
shapes map. -/
def total_tile_area (shapes : List (Nat × Shape)) (required : List Nat) : Nat :=
  required.enum.foldl
    (fun acc p =>
      if 0 < p.2 then
        match List.lookup p.1 shapes with
        | some s => acc + s.card * p.2
        | none => acc
      else acc)
    0

/-- `can_fit_presents`: lower-bound admission by non-overlapping 3x3
boxes, then the exact capacity rejection, then the backtracking
fallback.  Python `//` is floor division, embedded as `Int.fdiv`. -/
def can_fit_presents (width height : ℤ)
    (shapes : List (Nat × Shape)) (required : List Nat) : Bool :=
  let num_presents := required.sum
  let max_presents_lower_bound := Int.fdiv width 3 * Int.fdiv height 3
  if (num_presents : ℤ) ≤ max_presents_lower_bound then true
  else
    if (total_tile_area shapes required : ℤ) > width * height then false
    else can_fit_presents_backtracking width height shapes required

/-! ### Helper lemmas about `normalize_shape` -/

lemma normalize_shape_empty : normalize_shape (∅ : Shape) = ∅ := by
  unfold normalize_shape
  rw [dif_neg (by simp)]

lemma normalize_shape_of_nonempty (s : Shape) (h : s.Nonempty) :
    normalize_shape s = s.image fun p =>
      (p.1 - (s.image Prod.fst).min' (h.image _),
       p.2 - (s.image Prod.snd).min' (h.image _)) := by
  unfold normalize_shape
  rw [dif_pos h]

lemma min'_eq_of_eq {s t : Finset ℤ} (h : s = t) (hs : s.Nonempty) (ht : t.Nonempty) :
    s.min' hs = t.min' ht := by
  subst h; rfl

set_option maxHeartbeats 2000000 in
/-- Translating a shape does not change its normalization. -/
lemma normalize_shape_translate (a b : ℤ) (s : Shape) :
    normalize_shape (s.image fun p => (p.1 + a, p.2 + b)) = normalize_shape s := by
  by_cases h : s.Nonempty
  · have ht : (s.image fun p => (p.1 + a, p.2 + b)).Nonempty := h.image _
    have hfst : (s.image fun p => (p.1 + a, p.2 + b)).image Prod.fst
        = (s.image Prod.fst).image fun x => x + a := by
      rw [Finset.image_image, Finset.image_image]; rfl
    have hsnd : (s.image fun p => (p.1 + a, p.2 + b)).image Prod.snd
        = (s.image Prod.snd).image fun x => x + b := by
      rw [Finset.image_image, Finset.image_image]; rfl
    have hma : Monotone fun x : ℤ => x + a := fun u v huv => by dsimp only; omega
    have hmb : Monotone fun x : ℤ => x + b := fun u v huv => by dsimp only; omega
    have hminR : ((s.image fun p => (p.1 + a, p.2 + b)).image Prod.fst).min' (ht.image _)
        = (s.image Prod.fst).min' (h.image _) + a := by
      rw [min'_eq_of_eq hfst (ht.image _) ((h.image Prod.fst).image _)]
      exact Finset.min'_image hma _ _
    have hminC : ((s.image fun p => (p.1 + a, p.2 + b)).image Prod.snd).min' (ht.image _)
        = (s.image Prod.snd).min' (h.image _) + b := by
      rw [min'_eq_of_eq hsnd (ht.image _) ((h.image Prod.snd).image _)]
      exact Finset.min'_image hmb _ _
    rw [normalize_shape_of_nonempty _ ht, normalize_shape_of_nonempty _ h,
      hminR, hminC, Finset.image_image]
    apply Finset.image_congr
    intro x _
    show (x.1 + a - ((s.image Prod.fst).min' (h.image _) + a),
          x.2 + b - ((s.image Prod.snd).min' (h.image _) + b))
        = (x.1 - (s.image Prod.fst).min' (h.image _),
           x.2 - (s.image Prod.snd).min' (h.image _))
    rw [Prod.mk.injEq]
    exact ⟨by ring, by ring⟩
  · rw [Finset.not_nonempty_iff_eq_empty] at h
    subst h
    rw [Finset.image_empty]

/-- Every normalization is a translation of the original shape. -/
lemma normalize_shape_eq_translate (s : Shape) :
    ∃ a b : ℤ, normalize_shape s = s.image fun p => (p.1 + a, p.2 + b) := by
  by_cases h : s.Nonempty
  · refine ⟨-(s.image Prod.fst).min' (h.image _), -(s.image Prod.snd).min' (h.image _), ?_⟩
    rw [normalize_shape_of_nonempty s h]
    apply Finset.image_congr
    intro x _
    rw [Prod.mk.injEq]
    exact ⟨by ring, by ring⟩
  · rw [Finset.not_nonempty_iff_eq_empty] at h
    subst h
    exact ⟨0, 0, by rw [Finset.image_empty, normalize_shape_empty]⟩

/-- `normalize_shape` is idempotent. -/
lemma normalize_shape_idem (s : Shape) :
    normalize_shape (normalize_shape s) = normalize_shape s := by
  obtain ⟨a, b, hab⟩ := normalize_shape_eq_translate s
  conv_lhs => rw [hab]
  rw [normalize_shape_translate]

/-- `normalize_shape` maps a set to the empty set exactly when the set
is empty. -/
lemma normalize_shape_eq_empty_iff (s : Shape) :
    normalize_shape s = ∅ ↔ s = ∅ := by
  obtain ⟨a, b, hab⟩ := normalize_shape_eq_translate s
  rw [hab, Finset.image_eq_empty]

lemma card_normalize_shape (s : Shape) :
    (normalize_shape s).card = s.card := by
  obtain ⟨a, b, hab⟩ := normalize_shape_eq_translate s
  rw [hab]
  apply Finset.card_image_of_injective
  intro p q hpq
  rw [Prod.ext_iff] at hpq ⊢
  dsimp only at hpq
  omega

lemma card_rotate_90 (s : Shape) : (rotate_90 s).card = s.card := by
  unfold rotate_90
  rw [card_normalize_shape]
  apply Finset.card_image_of_injective
  intro p q hpq
  rw [Prod.ext_iff] at hpq ⊢
  dsimp only at hpq
  omega

lemma card_flip_horizontal (s : Shape) : (flip_horizontal s).card = s.card := by
  unfold flip_horizontal
  rw [card_normalize_shape]
  apply Finset.card_image_of_injective
  intro p q hpq
  rw [Prod.ext_iff] at hpq ⊢
  dsimp only at hpq
  omega

/-! ### Rotation and reflection identities -/

/-- Normalizing first does not change the result of an image under an
additive map followed by normalization. -/
lemma normalize_image_of_add_map (f : Cell → Cell)
    (hf : ∀ (p : Cell) (a b : ℤ),
      f (p.1 + a, p.2 + b) = ((f p).1 + (f (a, b)).1, (f p).2 + (f (a, b)).2))
    (s : Shape) :
    normalize_shape ((normalize_shape s).image f) = normalize_shape (s.image f) := by
  obtain ⟨a, b, hab⟩ := normalize_shape_eq_translate s
  rw [hab, Finset.image_image]
  have heq : s.image (f ∘ fun p => (p.1 + a, p.2 + b))
      = (s.image f).image fun q => (q.1 + (f (a, b)).1, q.2 + (f (a, b)).2) := by
    rw [Finset.image_image]
    apply Finset.image_congr
    intro x _
    exact hf x a b
  rw [heq, normalize_shape_translate]

lemma normalize_image_rot_normalize (s : Shape) :
    normalize_shape ((normalize_shape s).image fun p => (p.2, -p.1))
      = normalize_shape (s.image fun p => (p.2, -p.1)) :=
  normalize_image_of_add_map _
    (fun p a b => by rw [Prod.mk.injEq]; exact ⟨rfl, by ring⟩) s

lemma normalize_image_flip_normalize (s : Shape) :
    normalize_shape ((normalize_shape s).image fun p => (p.1, -p.2))
      = normalize_shape (s.image fun p => (p.1, -p.2)) :=
  normalize_image_of_add_map _
    (fun p a b => by rw [Prod.mk.injEq]; exact ⟨rfl, by ring⟩) s

lemma normalize_image_antirot_normalize (s : Shape) :
    normalize_shape ((normalize_shape s).image fun p => (-p.2, p.1))
      = normalize_shape (s.image fun p => (-p.2, p.1)) :=
  normalize_image_of_add_map _
    (fun p a b => by rw [Prod.mk.injEq]; exact ⟨by ring, rfl⟩) s

lemma rotate_90_of_normalize (s : Shape) :
    rotate_90 (normalize_shape s) = rotate_90 s := by
  unfold rotate_90
  exact normalize_image_rot_normalize s

lemma flip_horizontal_of_normalize (s : Shape) :
    flip_horizontal (normalize_shape s) = flip_horizontal s := by
  unfold flip_horizontal
  exact normalize_image_flip_normalize s

lemma normalize_rotate_90 (s : Shape) :
    normalize_shape (rotate_90 s) = rotate_90 s := by
  unfold rotate_90
  exact normalize_shape_idem _

lemma normalize_flip_horizontal (s : Shape) :
    normalize_shape (flip_horizontal s) = flip_horizontal s := by
  unfold flip_horizontal
  exact normalize_shape_idem _

lemma rotate_90_rotate_90 (s : Shape) :
    rotate_90 (rotate_90 s) = normalize_shape (s.image fun p => (-p.1, -p.2)) := by
  unfold rotate_90
  rw [normalize_image_rot_normalize, Finset.image_image]
  congr 1

lemma rotate_90_three (s : Shape) :
    rotate_90 (rotate_90 (rotate_90 s))
      = normalize_shape (s.image fun p => (-p.2, p.1)) := by
  rw [rotate_90_rotate_90 s, rotate_90_of_normalize]
  unfold rotate_90
  rw [Finset.image_image]
  congr 1
  apply Finset.image_congr
  intro x _
  simp only [Function.comp_apply, Prod.mk.injEq]
  constructor <;> ring_nf

lemma rotate_90_four (s : Shape) :
    rotate_90 (rotate_90 (rotate_90 (rotate_90 s))) = normalize_shape s := by
  rw [rotate_90_three s, rotate_90_of_normalize]
  unfold rotate_90
  rw [Finset.image_image]
  have heq : (s.image ((fun p : Cell => (p.2, -p.1)) ∘ fun p : Cell => (-p.2, p.1)))
      = s.image id := by
    apply Finset.image_congr
    intro x _
    simp only [Function.comp_apply, id_eq, neg_neg]
  rw [heq, Finset.image_id]

lemma flip_horizontal_flip_horizontal (s : Shape) :
    flip_horizontal (flip_horizontal s) = normalize_shape s := by
  unfold flip_horizontal
  rw [normalize_image_flip_normalize, Finset.image_image]
  have heq : (s.image ((fun p : Cell => (p.1, -p.2)) ∘ fun p : Cell => (p.1, -p.2)))
      = s.image id := by
    apply Finset.image_congr
    intro x _
    simp only [Function.comp_apply, id_eq, neg_neg]
  rw [heq, Finset.image_id]

/-- The dihedral relation: reflecting after a rotation is the same as
rotating three times after reflecting. -/
lemma flip_rot_eq (s : Shape) :
    flip_horizontal (rotate_90 s)
      = rotate_90 (rotate_90 (rotate_90 (flip_horizontal s))) := by
  have hL : flip_horizontal (rotate_90 s)
      = normalize_shape (s.image fun p => (p.2, p.1)) := by
    unfold rotate_90 flip_horizontal
    rw [normalize_image_flip_normalize, Finset.image_image]
    congr 1
    apply Finset.image_congr
    intro x _
    simp only [Function.comp_apply, Prod.mk.injEq]
    constructor <;> ring_nf
  have hR : rotate_90 (rotate_90 (rotate_90 (flip_horizontal s)))
      = normalize_shape (s.image fun p => (p.2, p.1)) := by
    rw [rotate_90_three (flip_horizontal s)]
    unfold flip_horizontal
    rw [normalize_image_antirot_normalize, Finset.image_image]
    congr 1
    apply Finset.image_congr
    intro x _
    simp only [Function.comp_apply, Prod.mk.injEq]
    constructor <;> ring_nf
  rw [hL, hR]

/-! ### Iterated rotations -/

lemma iter_two (s : Shape) : rotate_90^[2] s = rotate_90 (rotate_90 s) := by
  show rotate_90^[1 + 1] s = _
  rw [Function.iterate_add_apply, Function.iterate_one]

lemma iter_three (s : Shape) :
    rotate_90^[3] s = rotate_90 (rotate_90 (rotate_90 s)) := by
  show rotate_90^[2 + 1] s = _
  rw [Function.iterate_add_apply, Function.iterate_one, iter_two]

lemma iter_four (s : Shape) :
    rotate_90^[4] s = rotate_90 (rotate_90 (rotate_90 (rotate_90 s))) := by
  show rotate_90^[3 + 1] s = _
  rw [Function.iterate_add_apply, Function.iterate_one, iter_three]

lemma rotate_90_iterate_four (s : Shape) (hs : normalize_shape s = s) :
    rotate_90^[4] s = s := by
  rw [iter_four, rotate_90_four, hs]

lemma rotate_90_iterate_mod (k : ℕ) (s : Shape) (hs : normalize_shape s = s) :
    rotate_90^[k] s = rotate_90^[k % 4] s := by
  induction k using Nat.strong_induction_on with
  | _ k ih =>
    by_cases hk : k < 4
    · rw [Nat.mod_eq_of_lt hk]
    · push_neg at hk
      have hdecomp : k = (k - 4) + 4 := by omega
      rw [hdecomp, Function.iterate_add_apply, rotate_90_iterate_four s hs,
        ih (k - 4) (by omega)]
      congr 1
      omega

lemma normalize_iterate_rotate (k : ℕ) (s : Shape) (hs : normalize_shape s = s) :
    normalize_shape (rotate_90^[k] s) = rotate_90^[k] s := by
  cases k with
  | zero => simpa using hs
  | succ n =>
    rw [Function.iterate_succ_apply']
    exact normalize_rotate_90 _

lemma card_iterate_rotate (k : ℕ) (s : Shape) :
    (rotate_90^[k] s).card = s.card := by
  induction k with
  | zero => rfl
  | succ n ih =>
    rw [Function.iterate_succ_apply', card_rotate_90, ih]

/-! ### Characterizing the generated transformation list -/

lemma foldl_dedup_mem {α β : Type} [DecidableEq α] (g : β → α) :
    ∀ (xs : List β) (acc : List α) (y : α),
      (y ∈ xs.foldl (fun r k => if g k ∈ r then r else r ++ [g k]) acc) ↔
        y ∈ acc ∨ ∃ k ∈ xs, y = g k := by
  intro xs
  induction xs with
  | nil => simp
  | cons x xs ih =>
    intro acc y
    rw [List.foldl_cons, ih]
    by_cases hx : g x ∈ acc
    · rw [if_pos hx]
      constructor
      · rintro (h | ⟨k, hk, rfl⟩)
        · exact Or.inl h
        · exact Or.inr ⟨k, List.mem_cons_of_mem _ hk, rfl⟩
      · rintro (h | ⟨k, hk, rfl⟩)
        · exact Or.inl h
        · rcases List.mem_cons.mp hk with rfl | hk2
          · exact Or.inl hx
          · exact Or.inr ⟨k, hk2, rfl⟩
    · rw [if_neg hx]
      constructor
      · rintro (h | ⟨k, hk, rfl⟩)
        · rcases List.mem_append.mp h with h2 | h2
          · exact Or.inl h2
          · rw [List.mem_singleton.mp h2]
            exact Or.inr ⟨x, List.mem_cons_self _ _, rfl⟩
        · exact Or.inr ⟨k, List.mem_cons_of_mem _ hk, rfl⟩
      · rintro (h | ⟨k, hk, rfl⟩)
        · exact Or.inl (List.mem_append.mpr (Or.inl h))
        · rcases List.mem_cons.mp hk with rfl | hk2
          · exact Or.inl (List.mem_append.mpr (Or.inr (List.mem_singleton.mpr rfl)))
          · exact Or.inr ⟨k, hk2, rfl⟩

lemma foldl_dedup_nodup {α β : Type} [DecidableEq α] (g : β → α) :
    ∀ (xs : List β) (acc : List α), acc.Nodup →
      (xs.foldl (fun r k => if g k ∈ r then r else r ++ [g k]) acc).Nodup := by
  intro xs
  induction xs with
  | nil => intro acc h; exact h
  | cons x xs ih =>
    intro acc h
    rw [List.foldl_cons]
    apply ih
    by_cases hx : g x ∈ acc
    · rw [if_pos hx]; exact h
    · rw [if_neg hx]
      rw [← List.concat_eq_append]
      exact List.Nodup.concat hx h

/-- Unfolding the two-element boolean fold in
`generate_transformations`. -/
lemma generate_transformations_eq (shape : Shape) :
    generate_transformations shape =
      rotation_pass (flip_horizontal (normalize_shape shape))
        (rotation_pass (normalize_shape shape) []) := by
  unfold generate_transformations
  rw [List.foldl_cons, List.foldl_cons, List.foldl_nil,
    if_neg Bool.false_ne_true, if_pos rfl]

lemma rotation_pass_mem (working : Shape) (acc : List Shape) (y : Shape) :
    y ∈ rotation_pass working acc ↔
      y ∈ acc ∨ ∃ k ∈ List.range 4, y = normalize_shape (rotate_90^[k] working) :=
  foldl_dedup_mem _ _ _ _

lemma rotation_pass_nodup (working : Shape) (acc : List Shape) (h : acc.Nodup) :
    (rotation_pass working acc).Nodup :=
  foldl_dedup_nodup _ _ _ h

lemma mem_generate_transformations (shape T : Shape) :
    T ∈ generate_transformations shape ↔
      (∃ k < 4, T = rotate_90^[k] (normalize_shape shape)) ∨
      (∃ k < 4, T = rotate_90^[k] (flip_horizontal (normalize_shape shape))) := by
  rw [generate_transformations_eq, rotation_pass_mem, rotation_pass_mem]
  have hX : ∀ k : ℕ, normalize_shape (rotate_90^[k] (normalize_shape shape))
      = rotate_90^[k] (normalize_shape shape) :=
    fun k => normalize_iterate_rotate k _ (normalize_shape_idem shape)
  have hY : ∀ k : ℕ,
      normalize_shape (rotate_90^[k] (flip_horizontal (normalize_shape shape)))
      = rotate_90^[k] (flip_horizontal (normalize_shape shape)) :=
    fun k => normalize_iterate_rotate k _ (normalize_flip_horizontal _)
  simp only [hX, hY, List.not_mem_nil, false_or, List.mem_range]

lemma nodup_generate_transformations (shape : Shape) :
    (generate_transformations shape).Nodup := by
  rw [generate_transformations_eq]
  exact rotation_pass_nodup _ _ (rotation_pass_nodup _ _ List.nodup_nil)

/-- The set of the at most four distinct quarter-turn rotations of a
shape. -/
def rot_orbit (s : Shape) : Finset Shape :=
  {s, rotate_90 s, rotate_90 (rotate_90 s), rotate_90 (rotate_90 (rotate_90 s))}

lemma mem_rot_orbit_iff (s T : Shape) :
    T ∈ rot_orbit s ↔ ∃ k < 4, T = rotate_90^[k] s := by
  unfold rot_orbit
  simp only [Finset.mem_insert, Finset.mem_singleton]
  constructor
  · rintro (rfl | rfl | rfl | rfl)
    · exact ⟨0, by omega, rfl⟩
    · exact ⟨1, by omega, rfl⟩
    · exact ⟨2, by omega, (iter_two s)⟩
    · exact ⟨3, by omega, (iter_three s)⟩
  · rintro ⟨k, hk, rfl⟩
    interval_cases k
    · exact Or.inl rfl
    · exact Or.inr (Or.inl rfl)
    · exact Or.inr (Or.inr (Or.inl (iter_two s)))
    · exact Or.inr (Or.inr (Or.inr (iter_three s)))

lemma toFinset_generate_transformations (shape : Shape) :
    (generate_transformations shape).toFinset
      = rot_orbit (normalize_shape shape)
        ∪ rot_orbit (flip_horizontal (normalize_shape shape)) := by
  ext T
  rw [List.mem_toFinset, mem_generate_transformations, Finset.mem_union,
    mem_rot_orbit_iff, mem_rot_orbit_iff]

/-- The number of distinct quarter-turn rotations of a normalized
shape is 1, 2 or 4, according to its rotational symmetry. -/
lemma rot_orbit_card_eq (s : Shape) (hs : normalize_shape s = s) :
    (rot_orbit s).card =
      if rotate_90 s = s then 1
      else if rotate_90 (rotate_90 s) = s then 2 else 4 := by
  have h4 : rotate_90 (rotate_90 (rotate_90 (rotate_90 s))) = s := by
    rw [rotate_90_four, hs]
  by_cases h1 : rotate_90 s = s
  · rw [if_pos h1]
    have horb : rot_orbit s = {s} := by
      unfold rot_orbit
      simp only [h1, Finset.insert_idem, Finset.pair_eq_singleton]
    rw [horb, Finset.card_singleton]
  · by_cases h2 : rotate_90 (rotate_90 s) = s
    · rw [if_neg h1, if_pos h2]
      have horb : rot_orbit s = {s, rotate_90 s} := by
        unfold rot_orbit
        rw [h2]
        ext T
        simp only [Finset.mem_insert, Finset.mem_singleton]
        constructor
        · rintro (h | h | h | h)
          · exact Or.inl h
          · exact Or.inr h
          · exact Or.inl h
          · exact Or.inr h
        · rintro (h | h)
          · exact Or.inl h
          · exact Or.inr (Or.inl h)
      rw [horb,
        Finset.card_insert_of_not_mem
          (by simp only [Finset.mem_singleton]; exact fun he => h1 he.symm),
        Finset.card_singleton]
    · rw [if_neg h1, if_neg h2]
      have hd01 : s ≠ rotate_90 s := fun he => h1 he.symm
      have hd02 : s ≠ rotate_90 (rotate_90 s) := fun he => h2 he.symm
      have hd03 : s ≠ rotate_90 (rotate_90 (rotate_90 s)) := by
        intro he
        apply h1
        have e := congrArg rotate_90 he
        rw [h4] at e
        exact e
      have hd12 : rotate_90 s ≠ rotate_90 (rotate_90 s) := by
        intro he
        apply h1
        have e := congrArg (fun u => rotate_90 (rotate_90 (rotate_90 u))) he
        dsimp only at e
        rw [h4] at e
        exact e.symm
      have hd13 : rotate_90 s ≠ rotate_90 (rotate_90 (rotate_90 s)) := by
        intro he
        apply h2
        have e := congrArg rotate_90 he
        rw [h4] at e
        exact e
      have hd23 : rotate_90 (rotate_90 s) ≠ rotate_90 (rotate_90 (rotate_90 s)) := by
        intro he
        apply h1
        have e := congrArg (fun u => rotate_90 (rotate_90 u)) he
        dsimp only at e
        rw [h4] at e
        exact e.symm
      unfold rot_orbit
      rw [Finset.card_insert_of_not_mem
          (by
            simp only [Finset.mem_insert, Finset.mem_singleton]
            push_neg
            exact ⟨hd01, hd02, hd03⟩),
        Finset.card_insert_of_not_mem
          (by
            simp only [Finset.mem_insert, Finset.mem_singleton]
            push_neg
            exact ⟨hd12, hd13⟩),
        Finset.card_insert_of_not_mem
          (by simp only [Finset.mem_singleton]; exact hd23),
        Finset.card_singleton]

/-- A reflected shape has a quarter-turn symmetry exactly when the
shape itself does. -/
lemma flip_fix_rot_iff (X : Shape) (hX : normalize_shape X = X) :
    rotate_90 (flip_horizontal X) = flip_horizontal X ↔ rotate_90 X = X := by
  have h4X : rotate_90 (rotate_90 (rotate_90 (rotate_90 X))) = X := by
    rw [rotate_90_four, hX]
  have h4Y : rotate_90 (rotate_90 (rotate_90 (rotate_90 (flip_horizontal X))))
      = flip_horizontal X := by
    rw [rotate_90_four, normalize_flip_horizontal]
  have hFF : flip_horizontal (flip_horizontal X) = X := by
    rw [flip_horizontal_flip_horizontal, hX]
  constructor
  · intro h
    have e1 := congrArg flip_horizontal h
    rw [hFF, flip_rot_eq (flip_horizontal X), hFF] at e1
    have e2 := congrArg rotate_90 e1
    rw [h4X] at e2
    exact e2.symm
  · intro h
    have e1 : flip_horizontal X
        = rotate_90 (rotate_90 (rotate_90 (flip_horizontal X))) := by
      conv_lhs => rw [← h]
      exact flip_rot_eq X
    have e2 := congrArg rotate_90 e1
    rw [h4Y] at e2
    exact e2

/-- A reflected shape has a half-turn symmetry exactly when the shape
itself does. -/
lemma flip_fix_rot2_iff (X : Shape) (hX : normalize_shape X = X) :
    rotate_90 (rotate_90 (flip_horizontal X)) = flip_horizontal X ↔
      rotate_90 (rotate_90 X) = X := by
  have h4X : rotate_90 (rotate_90 (rotate_90 (rotate_90 X))) = X := by
    rw [rotate_90_four, hX]
  have h4Y : rotate_90 (rotate_90 (rotate_90 (rotate_90 (flip_horizontal X))))
      = flip_horizontal X := by
    rw [rotate_90_four, normalize_flip_horizontal]
  have h4FY : rotate_90 (rotate_90 (rotate_90 (rotate_90
      (flip_horizontal (flip_horizontal X)))))
      = flip_horizontal (flip_horizontal X) := by
    rw [rotate_90_four, normalize_flip_horizontal]
  have hFF : flip_horizontal (flip_horizontal X) = X := by
    rw [flip_horizontal_flip_horizontal, hX]
  constructor
  · intro h
    have e1 := congrArg flip_horizontal h
    rw [flip_rot_eq (rotate_90 (flip_horizontal X)),
      flip_rot_eq (flip_horizontal X), h4FY, hFF] at e1
    exact e1
  · intro h
    have e1 := congrArg flip_horizontal h
    rw [flip_rot_eq (rotate_90 X), flip_rot_eq X, h4Y] at e1
    exact e1

/-- The number of distinct orientations generated for any shape is
1, 2, 4 or 8. -/
lemma length_generate_transformations_cases (shape : Shape) :
    (generate_transformations shape).length = 1 ∨
    (generate_transformations shape).length = 2 ∨
    (generate_transformations shape).length = 4 ∨
    (generate_transformations shape).length = 8 := by
  have hX : normalize_shape (normalize_shape shape) = normalize_shape shape :=
    normalize_shape_idem shape
  have hYn : normalize_shape (flip_horizontal (normalize_shape shape))
      = flip_horizontal (normalize_shape shape) := normalize_flip_horizontal _
  have hlen : (generate_transformations shape).length
      = (rot_orbit (normalize_shape shape)
          ∪ rot_orbit (flip_horizontal (normalize_shape shape))).card := by
    rw [← toFinset_generate_transformations]
    exact (List.toFinset_card_of_nodup (nodup_generate_transformations shape)).symm
  rw [hlen]
  by_cases hYin : flip_horizontal (normalize_shape shape) ∈ rot_orbit (normalize_shape shape)
  · have hsub : rot_orbit (flip_horizontal (normalize_shape shape))
        ⊆ rot_orbit (normalize_shape shape) := by
      intro z hz
      rw [mem_rot_orbit_iff] at hz hYin ⊢
      obtain ⟨k, hk, rfl⟩ := hz
      obtain ⟨j, hj, hYj⟩ := hYin
      refine ⟨(k + j) % 4, Nat.mod_lt _ (by omega), ?_⟩
      rw [hYj, ← Function.iterate_add_apply]
      exact rotate_90_iterate_mod (k + j) _ hX
    rw [Finset.union_eq_left.mpr hsub, rot_orbit_card_eq _ hX]
    by_cases h1 : rotate_90 (normalize_shape shape) = normalize_shape shape
    · rw [if_pos h1]
      exact Or.inl rfl
    · by_cases h2 : rotate_90 (rotate_90 (normalize_shape shape)) = normalize_shape shape
      · rw [if_neg h1, if_pos h2]
        exact Or.inr (Or.inl rfl)
      · rw [if_neg h1, if_neg h2]
        exact Or.inr (Or.inr (Or.inl rfl))
  · have hdisj : Disjoint (rot_orbit (normalize_shape shape))
        (rot_orbit (flip_horizontal (normalize_shape shape))) := by
      rw [Finset.disjoint_left]
      intro z hzX hzY
      apply hYin
      rw [mem_rot_orbit_iff] at hzX hzY ⊢
      obtain ⟨a, ha, hza⟩ := hzX
      obtain ⟨b, hb, hzb⟩ := hzY
      refine ⟨((4 - b) + a) % 4, Nat.mod_lt _ (by omega), ?_⟩
      have hYb : rotate_90^[4 - b] (rotate_90^[b] (flip_horizontal (normalize_shape shape)))
          = flip_horizontal (normalize_shape shape) := by
        rw [← Function.iterate_add_apply]
        have hfour : (4 - b) + b = 4 := by omega
        rw [hfour]
        exact rotate_90_iterate_four _ hYn
      calc flip_horizontal (normalize_shape shape)
          = rotate_90^[4 - b] (rotate_90^[b] (flip_horizontal (normalize_shape shape))) :=
            hYb.symm
        _ = rotate_90^[4 - b] z := by rw [← hzb]
        _ = rotate_90^[4 - b] (rotate_90^[a] (normalize_shape shape)) := by rw [hza]
        _ = rotate_90^[(4 - b) + a] (normalize_shape shape) :=
            (Function.iterate_add_apply _ _ _ _).symm
        _ = rotate_90^[((4 - b) + a) % 4] (normalize_shape shape) :=
            rotate_90_iterate_mod _ _ hX
    rw [Finset.card_union_of_disjoint hdisj, rot_orbit_card_eq _ hX,
      rot_orbit_card_eq _ hYn]
    by_cases h1 : rotate_90 (normalize_shape shape) = normalize_shape shape
    · rw [if_pos h1, if_pos ((flip_fix_rot_iff _ hX).mpr h1)]
      exact Or.inr (Or.inl rfl)
    · by_cases h2 : rotate_90 (rotate_90 (normalize_shape shape)) = normalize_shape shape
      · rw [if_neg h1, if_pos h2,
          if_neg (fun hc => h1 ((flip_fix_rot_iff _ hX).mp hc)),
          if_pos ((flip_fix_rot2_iff _ hX).mpr h2)]
        exact Or.inr (Or.inr (Or.inl rfl))
      · rw [if_neg h1, if_neg h2,
          if_neg (fun hc => h1 ((flip_fix_rot_iff _ hX).mp hc)),
          if_neg (fun hc => h2 ((flip_fix_rot2_iff _ hX).mp hc))]
        exact Or.inr (Or.inr (Or.inr rfl))

/-! ### Compositions of the two generating transforms -/

/-- The two generating transforms of the symmetry group: a quarter
turn and the horizontal reflection, each of which renormalizes. -/
inductive GenTransform : Type where
  | rot : GenTransform
  | flip : GenTransform

/-- Apply one generating transform. -/
def apply_transform : GenTransform → Shape → Shape
  | GenTransform.rot, s => rotate_90 s
  | GenTransform.flip, s => flip_horizontal s

/-- Apply a finite composition of generating transforms, left to
right. -/
def apply_transforms (gs : List GenTransform) (s : Shape) : Shape :=
  gs.foldl (fun u g => apply_transform g u) s

lemma apply_transforms_append (gs1 gs2 : List GenTransform) (s : Shape) :
    apply_transforms (gs1 ++ gs2) s = apply_transforms gs2 (apply_transforms gs1 s) := by
  unfold apply_transforms
  rw [List.foldl_append]

lemma apply_transforms_replicate_rot (n : ℕ) (s : Shape) :
    apply_transforms (List.replicate n GenTransform.rot) s = rotate_90^[n] s := by
  induction n generalizing s with
  | zero => rfl
  | succ m ih =>
    rw [List.replicate_succ]
    show apply_transforms (GenTransform.rot :: List.replicate m GenTransform.rot) s = _
    have hcons : apply_transforms (GenTransform.rot :: List.replicate m GenTransform.rot) s
        = apply_transforms (List.replicate m GenTransform.rot) (rotate_90 s) := rfl
    rw [hcons, ih, ← Function.iterate_succ_apply]

/-- Every member of the generated list is a finite composition of the
two generating transforms applied to the original shape. -/
lemma mem_generate_transformations_composition (shape T : Shape)
    (hT : T ∈ generate_transformations shape) :
    ∃ gs : List GenTransform, T = apply_transforms gs shape := by
  have hX4 : apply_transforms (List.replicate 4 GenTransform.rot) shape
      = normalize_shape shape := by
    rw [apply_transforms_replicate_rot, iter_four, rotate_90_four]
  rw [mem_generate_transformations] at hT
  rcases hT with ⟨k, _, rfl⟩ | ⟨k, _, rfl⟩
  · refine ⟨List.replicate 4 GenTransform.rot ++ List.replicate k GenTransform.rot, ?_⟩
    rw [apply_transforms_append, hX4, apply_transforms_replicate_rot]
  · refine ⟨List.replicate 4 GenTransform.rot ++ [GenTransform.flip]
      ++ List.replicate k GenTransform.rot, ?_⟩
    rw [apply_transforms_append, apply_transforms_append, hX4,
      apply_transforms_replicate_rot]
    rfl

/-! ### Helper lemmas about placement and the search state -/

lemma can_place_at_disjoint (occupied : Finset Cell) (shape : Shape)
    (start_row start_col width height : ℤ)
    (h : can_place_at occupied shape start_row start_col width height) :
    Disjoint occupied (shape_cells_at shape start_row start_col) := by
  rw [Finset.disjoint_right]
  intro a ha hao
  rw [shape_cells_at, Finset.mem_image] at ha
  obtain ⟨d, hd, rfl⟩ := ha
  exact (h d hd).2.2.2.2 hao

lemma unplace_place (occupied : Finset Cell) (shape : Shape) (start_row start_col : ℤ)
    (h : Disjoint occupied (shape_cells_at shape start_row start_col)) :
    unplace_shape_at (place_shape_at occupied shape start_row start_col)
      shape start_row start_col = occupied := by
  unfold place_shape_at unplace_shape_at
  exact Finset.union_sdiff_cancel_right h

lemma tryPositions_false_restore (width height : ℤ)
    (rec : Finset Cell → Bool × Finset Cell) (t : Shape)
    (hrec : ∀ o, (rec o).1 = false → (rec o).2 = o) :
    ∀ (ps : List Cell) (occ : Finset Cell),
      (tryPositions width height rec t ps occ).1 = false →
      (tryPositions width height rec t ps occ).2 = occ := by
  intro ps
  induction ps with
  | nil => intro occ _; rfl
  | cons pos ps ih =>
    intro occ hfalse
    unfold tryPositions at hfalse ⊢
    by_cases hcp : can_place_at occ t pos.1 pos.2 width height
    · rw [if_pos hcp] at hfalse ⊢
      cases hr : rec (place_shape_at occ t pos.1 pos.2) with
      | mk b o2 =>
        cases b
        · have ho2 : o2 = place_shape_at occ t pos.1 pos.2 := by
            have h2 := hrec (place_shape_at occ t pos.1 pos.2)
            rw [hr] at h2
            exact h2 rfl
          rw [hr] at hfalse
          dsimp only at hfalse ⊢
          rw [ho2,
            unplace_place _ _ _ _ (can_place_at_disjoint _ _ _ _ _ _ hcp)] at hfalse ⊢
          exact ih occ hfalse
        · rw [hr] at hfalse
          simp at hfalse
    · rw [if_neg hcp] at hfalse ⊢
      exact ih occ hfalse

lemma tryTransformations_false_restore (width height : ℤ)
    (rec : Finset Cell → Bool × Finset Cell) (cands : List Cell)
    (hrec : ∀ o, (rec o).1 = false → (rec o).2 = o) :
    ∀ (ts : List Shape) (occ : Finset Cell),
      (tryTransformations width height rec cands ts occ).1 = false →
      (tryTransformations width height rec cands ts occ).2 = occ := by
  intro ts
  induction ts with
  | nil => intro occ _; rfl
  | cons t ts ih =>
    intro occ hfalse
    unfold tryTransformations at hfalse ⊢
    cases hp : tryPositions width height rec t cands occ with
    | mk b o2 =>
      cases b
      · have ho2 : o2 = occ := by
          have h2 := tryPositions_false_restore width height rec t hrec cands occ
          rw [hp] at h2
          exact h2 rfl
        rw [hp] at hfalse
        dsimp only at hfalse ⊢
        rw [ho2] at hfalse ⊢
        exact ih occ hfalse
      · rw [hp] at hfalse
        simp at hfalse

lemma backtrack_optimized_false_restore (width height piece_size : ℤ)
    (transformations : Nat → List Shape) (total : Nat) :
    ∀ (tasks : List Nat) (occ : Finset Cell),
      (backtrack_optimized width height piece_size transformations total tasks occ).1 = false →
      (backtrack_optimized width height piece_size transformations total tasks occ).2 = occ := by
  intro tasks
  induction tasks with
  | nil =>
    intro occ hfalse
    rw [backtrack_optimized_nil] at hfalse
    simp at hfalse
  | cons shape_idx rest ih =>
    intro occ hfalse
    rw [backtrack_optimized_cons] at hfalse ⊢
    by_cases hprune :
        width * height - (occ.card : ℤ) < ((rest.length : ℤ) + 1) * piece_size
    · rw [if_pos hprune]
    · rw [if_neg hprune] at hfalse ⊢
      exact tryTransformations_false_restore width height _ _ ih _ occ hfalse

/-! ### Shared helper lemmas for the claims about `can_fit_presents` -/

lemma can_fit_presents_of_lower_bound (width height : ℤ)
    (shapes : List (Nat × Shape)) (required : List Nat)
    (h : (required.sum : ℤ) ≤ Int.fdiv width 3 * Int.fdiv height 3) :
    can_fit_presents width height shapes required = true := by
  simp only [can_fit_presents]
  rw [if_pos h]

/-! ### Concrete shapes used in witnesses and counterexamples -/

/-- A single-cell shape. -/
def unit_shape : Shape := {((0 : ℤ), (0 : ℤ))}

/-- A horizontal two-cell domino. -/
def domino_shape : Shape := {((0 : ℤ), (0 : ℤ)), ((0 : ℤ), (1 : ℤ))}

/-- A vertical two-cell domino. -/
def vdomino_shape : Shape := {((0 : ℤ), (0 : ℤ)), ((1 : ℤ), (0 : ℤ))}

/-- A full 3x3 square (9 cells). -/
def square3_shape : Shape :=
  {((0 : ℤ), (0 : ℤ)), ((0 : ℤ), (1 : ℤ)), ((0 : ℤ), (2 : ℤ)),
   ((1 : ℤ), (0 : ℤ)), ((1 : ℤ), (1 : ℤ)), ((1 : ℤ), (2 : ℤ)),
   ((2 : ℤ), (0 : ℤ)), ((2 : ℤ), (1 : ℤ)), ((2 : ℤ), (2 : ℤ))}

/-- A 1x10 bar (10 cells), larger than a 3x3 region. -/
def ten_cell_shape : Shape :=
  {((0 : ℤ), (0 : ℤ)), ((0 : ℤ), (1 : ℤ)), ((0 : ℤ), (2 : ℤ)),
   ((0 : ℤ), (3 : ℤ)), ((0 : ℤ), (4 : ℤ)), ((0 : ℤ), (5 : ℤ)),
   ((0 : ℤ), (6 : ℤ)), ((0 : ℤ), (7 : ℤ)), ((0 : ℤ), (8 : ℤ)),
   ((0 : ℤ), (9 : ℤ))}

/-- Transformation table with a 3x3 square at index 0 and a unit cell
at index 1, as `can_fit_presents_backtracking` would build it for
`shapes = \{0: square, 1: unit\}`. -/
def mixed_transformations : Nat → List Shape :=
  fun i => if i = 0 then [square3_shape] else [unit_shape]

/-! ### The claims -/

/-- Claim C1 (corrected): the capacity rejection is not unconditional —
the lower-bound admission runs first, and with an oversized shape it
can return `true` even though the total required cell count exceeds
`width * height`.  Here a 10-cell shape in a 3x3 region is admitted
because `sum(required) = 1 <= (3 // 3) * (3 // 3)`. -/
theorem claim1_counterexample :
    (3 * 3 : ℤ) < (total_tile_area [(0, ten_cell_shape)] [1] : ℤ) ∧
    can_fit_presents 3 3 [(0, ten_cell_shape)] [1] = true := by
  decide

/-- Claim C1 (amended): whenever the lower-bound admission does not
fire (`sum(required) > (width // 3) * (height // 3)`), the feasibility
query returns `false` as soon as the total required cell count exceeds
`width * height`, regardless of the backtracking search. -/
theorem claim1_theorem (width height : ℤ)
    (shapes : List (Nat × Shape)) (required : List Nat)
    (hlb : Int.fdiv width 3 * Int.fdiv height 3 < (required.sum : ℤ))
    (hcap : width * height < (total_tile_area shapes required : ℤ)) :
    can_fit_presents width height shapes required = false := by
  simp only [can_fit_presents]
  rw [if_neg (not_le.mpr hlb), if_pos hcap]

/-- Witness for C1: a 1x1 region with one two-cell domino required. -/
theorem claim1_witness :
    can_fit_presents 1 1 [(0, domino_shape)] [1] = false :=
  claim1_theorem 1 1 [(0, domino_shape)] [1] (by decide) (by decide)

/-- Claim C2 (corrected): the prune in the backtracking search
multiplies the remaining-task count by the fixed `piece_size`
parameter, not by the cell count of the current task's shape.  With a
9-cell square as the current task but `piece_size = 1`, the claimed
prune condition holds (12 free cells < 2 * 9) yet the search proceeds
and succeeds. -/
theorem claim2_counterexample :
    ((4 * 3 : ℤ) - (((∅ : Finset Cell).card : ℤ)) < (2 : ℤ) * (square3_shape.card : ℤ)) ∧
    (backtrack_optimized 4 3 1 mixed_transformations 2 [0, 1] ∅).1 = true := by
  decide

/-- Claim C2 (amended): at every search state, the branch fails
immediately when the number of free cells is less than the number of
remaining tasks times the `piece_size` parameter (the cell count of
the last required shape present in the shapes map). -/
theorem claim2_theorem (width height piece_size : ℤ)
    (transformations : Nat → List Shape) (total : Nat)
    (shape_idx : Nat) (rest : List Nat) (occ : Finset Cell)
    (h : width * height - (occ.card : ℤ) < ((rest.length : ℤ) + 1) * piece_size) :
    backtrack_optimized width height piece_size transformations total
      (shape_idx :: rest) occ = (false, occ) := by
  rw [backtrack_optimized_cons, if_pos h]

/-- Witness for C2: a 1x1 region with piece size 2 prunes at once. -/
theorem claim2_witness :
    backtrack_optimized 1 1 2 (fun _ => []) 1 [0] ∅ = (false, ∅) :=
  claim2_theorem 1 1 2 (fun _ => []) 1 0 [] ∅ (by decide)

/-- Claim C3 (corrected): the occupancy set starts empty and is
restored (to empty) whenever the search returns `false`; but when the
search succeeds the placements are deliberately not undone, so the
final occupancy set is non-empty for any non-trivial success — here a
single unit tile placed in a 3x3 region leaves `\{(0, 0)\}` behind. -/
theorem claim3_counterexample :
    (backtrack_optimized 3 3 1 (fun _ => [unit_shape]) 1 [0] ∅).1 = true ∧
    (backtrack_optimized 3 3 1 (fun _ => [unit_shape]) 1 [0] ∅).2 ≠ ∅ := by
  decide

/-- Claim C3 (amended): whenever the backtracking search returns
`false`, it restores the occupancy set to exactly its initial value;
in particular a search started on the empty set ends on the empty set
when it is exhausted.  On success the occupancy holds the placed cells
and is discarded by the caller. -/
theorem claim3_theorem (width height piece_size : ℤ)
    (transformations : Nat → List Shape) (total : Nat)
    (tasks : List Nat) (occ : Finset Cell)
    (h : (backtrack_optimized width height piece_size transformations total tasks occ).1
      = false) :
    (backtrack_optimized width height piece_size transformations total tasks occ).2 = occ :=
  backtrack_optimized_false_restore width height piece_size transformations total tasks occ h

/-- Witness for C3: an exhausted search (domino in a 1x1 region) ends
with the empty occupancy set it started from. -/
theorem claim3_witness :
    (backtrack_optimized 1 1 2 (fun _ => [domino_shape]) 1 [0] ∅).2 = ∅ :=
  claim3_theorem 1 1 2 (fun _ => [domino_shape]) 1 [0] ∅ (by decide)

/-- Claim C4 (corrected): `normalize_shape` does not fail on the empty
offset set — the code returns the empty set unchanged (there is no
`InvalidShapeError` anywhere in the module). -/
theorem claim4_counterexample : normalize_shape (∅ : Shape) = ∅ :=
  normalize_shape_empty

/-- Claim C4 (amended): `normalize_shape` never fails: it returns the
empty set on the empty offset set, and a non-empty (normalized) shape
on every non-empty offset set. -/
theorem claim4_theorem (s : Shape) : normalize_shape s = ∅ ↔ s = ∅ :=
  normalize_shape_eq_empty_iff s

/-- Claim C5 (corrected): `place` followed by `unplace` with identical
arguments restores the occupancy set only when the placed cells were
disjoint from it; if a placed cell was already occupied, the round
trip removes it.  Here occupancy `\{(0, 0)\}` and a unit shape placed at
`(0, 0)` round-trip to the empty set. -/
theorem claim5_counterexample :
    unplace_shape_at (place_shape_at {((0 : ℤ), (0 : ℤ))} unit_shape 0 0)
      unit_shape 0 0 ≠ {((0 : ℤ), (0 : ℤ))} := by
  decide

/-- Claim C5 (amended): whenever the shape's translated cells are all
outside the occupancy set (as `can_place_at` guarantees), `place`
followed immediately by `unplace` with identical arguments restores
the occupancy set exactly. -/
theorem claim5_theorem (occupied : Finset Cell) (shape : Shape)
    (start_row start_col : ℤ)
    (h : ∀ p ∈ shape_cells_at shape start_row start_col, p ∉ occupied) :
    unplace_shape_at (place_shape_at occupied shape start_row start_col)
      shape start_row start_col = occupied := by
  apply unplace_place
  rw [Finset.disjoint_right]
  exact h

/-- Witness for C5: placing a unit shape on a disjoint occupancy and
unplacing it restores the occupancy. -/
theorem claim5_witness :
    unplace_shape_at (place_shape_at {((5 : ℤ), (5 : ℤ))} unit_shape 0 0)
      unit_shape 0 0 = {((5 : ℤ), (5 : ℤ))} :=
  claim5_theorem {((5 : ℤ), (5 : ℤ))} unit_shape 0 0 (by decide)

/-- Claim C6 (confirmed): for every non-empty shape the number of
distinct generated orientations is between 1 and 8 and divides 8, and
every generated orientation is a finite composition of the quarter
turn and the horizontal reflection (each renormalizing) applied to the
shape. -/
theorem claim6_theorem (S : Shape) (_hS : S.Nonempty) :
    (1 ≤ (generate_transformations S).length ∧
     (generate_transformations S).length ≤ 8 ∧
     (generate_transformations S).length ∣ 8) ∧
    ∀ T ∈ generate_transformations S,
      ∃ gs : List GenTransform, T = apply_transforms gs S := by
  constructor
  · rcases length_generate_transformations_cases S with h | h | h | h <;>
      rw [h] <;> norm_num
  · intro T hT
    exact mem_generate_transformations_composition S T hT

/-- Witness for C6 at the unit shape. -/
theorem claim6_witness :
    (1 ≤ (generate_transformations unit_shape).length ∧
     (generate_transformations unit_shape).length ≤ 8 ∧
     (generate_transformations unit_shape).length ∣ 8) ∧
    ∀ T ∈ generate_transformations unit_shape,
      ∃ gs : List GenTransform, T = apply_transforms gs unit_shape :=
  claim6_theorem unit_shape (by decide)

/-- Claim C7 (confirmed): whenever the number of required tiles is at
most `(width // 3) * (height // 3)`, the feasibility query returns
`true` immediately, for every shapes map and before any other check. -/
theorem claim7_theorem (width height : ℤ)
    (shapes : List (Nat × Shape)) (required : List Nat)
    (h : (required.sum : ℤ) ≤ Int.fdiv width 3 * Int.fdiv height 3) :
    can_fit_presents width height shapes required = true :=
  can_fit_presents_of_lower_bound width height shapes required h

/-- Witness for C7: one present in a 3x3 region is admitted at once. -/
theorem claim7_witness : can_fit_presents 3 3 [] [1] = true :=
  claim7_theorem 3 3 [] [1] (by decide)

/-- Claim C8 (confirmed): `normalize_shape` is idempotent. -/
theorem claim8_theorem (s : Shape) :
    normalize_shape (normalize_shape s) = normalize_shape s :=
  normalize_shape_idem s

/-- Claim C9 (confirmed): every generated orientation has exactly as
many cells as the input shape. -/
theorem claim9_theorem (S T : Shape) (hT : T ∈ generate_transformations S) :
    T.card = S.card := by
  rw [mem_generate_transformations] at hT
  rcases hT with ⟨k, _, rfl⟩ | ⟨k, _, rfl⟩
  · rw [card_iterate_rotate, card_normalize_shape]
  · rw [card_iterate_rotate, card_flip_horizontal, card_normalize_shape]

/-- Witness for C9: the vertical domino is an orientation of the
horizontal domino and has the same cell count. -/
theorem claim9_witness : vdomino_shape.card = domino_shape.card :=
  claim9_theorem domino_shape vdomino_shape (by decide)

/-- Claim C10 (confirmed): with positive width and height and an
all-zero required vector, the feasibility query returns `true`, even
when the region is smaller than 3 in either dimension. -/
theorem claim10_theorem (width height : ℤ)
    (shapes : List (Nat × Shape)) (required : List Nat)
    (hw : 0 < width) (hh : 0 < height) (hz : ∀ c ∈ required, c = 0) :
    can_fit_presents width height shapes required = true := by
  apply can_fit_presents_of_lower_bound
  rw [List.sum_eq_zero hz]
  exact_mod_cast mul_nonneg (Int.fdiv_nonneg (le_of_lt hw) (by norm_num))
    (Int.fdiv_nonneg (le_of_lt hh) (by norm_num))

/-- Witness for C10: a 1x2 region with nothing required fits. -/
theorem claim10_witness : can_fit_presents 1 2 [] [0, 0] = true :=
  claim10_theorem 1 2 [] [0, 0] (by decide) (by decide) (by decide)

end Day12

section SanityChecks

open Day12

example : normalize_shape {((2 : ℤ), (3 : ℤ)), ((3 : ℤ), (4 : ℤ))} =
    {((0 : ℤ), (0 : ℤ)), ((1 : ℤ), (1 : ℤ))} := by decide

example : rotate_90 {((0 : ℤ), (0 : ℤ)), ((0 : ℤ), (1 : ℤ))} =
    {((0 : ℤ), (0 : ℤ)), ((1 : ℤ), (0 : ℤ))} := by decide

example : generate_transformations {((0 : ℤ), (0 : ℤ))} = [{((0 : ℤ), (0 : ℤ))}] := by
  decide

example : (generate_transformations {((0 : ℤ), (0 : ℤ)), ((0 : ℤ), (1 : ℤ))}).length = 2 := by
  decide

example :
    (backtrack_optimized 3 3 1 (fun _ => [{((0 : ℤ), (0 : ℤ))}]) 1 [0] ∅).1 = true := by
  decide

example :
    can_fit_presents 3 3 [(0, {((0 : ℤ), (0 : ℤ))})] [1] = true := by decide

example :
    can_fit_presents 2 1 [(0, {((0 : ℤ), (0 : ℤ)), ((0 : ℤ), (1 : ℤ)), ((1 : ℤ), (0 : ℤ))})]
      [2] = false := by decide

end SanityChecks
